import Mathlib

/-
Verification of the wave-function-collapse Sudoku generator
(`src/main.rs`).  The Rust code is shallowly embedded: cells are lists of
candidate values with a propagation marker, the grid is the list of its 81
cells, the in-place mutations of the Rust code become explicit state
passing, and the fallible `remove_possibility` / `propagate` return
`Option`-like results.  The recursive `propagate` is embedded with an
explicit recursion-depth bound (`fuel`); the termination theorem shows
that `unprop_count g + 1` units of fuel always suffice, so the bound is
never hit on the actual 81-cell grids of the program.
-/

set_option maxHeartbeats 4000000
set_option maxRecDepth 100000

namespace WfcSudoku

/-- Embeds the Rust struct `Cell`: the remaining candidate values
(`possible_values`, a `Vec<u8>` in the source) and the per-pass
propagation marker. -/
structure Cell where
  possible_values : List Nat
  propagated : Bool
  deriving DecidableEq

/-- Embeds the Rust `Default` instance for `Cell`: full candidate set
`1..=9`, not yet propagated. -/
def Cell.default : Cell := ⟨[1, 2, 3, 4, 5, 6, 7, 8, 9], false⟩

/-- Embeds `Cell::collapse`.  The call to `choose(&mut thread_rng())` is
determinized by the extra argument `pick`: the chosen element is the one
at position `pick % len`, so every element of the list is reachable by
some `pick`.  Returns the updated cell together with the returned value
(`self.possible_values[0]` after the mutation). -/
def Cell.collapse (c : Cell) (pick : Nat) : Cell × Nat :=
  if 1 < c.possible_values.length then
    let value := c.possible_values.getD (pick % c.possible_values.length) 0
    ({ c with possible_values := [value] }, value)
  else
    (c, c.possible_values.headD 0)

/-- Embeds `Cell::remove_possibility`.  `none` models `Err(())`, the
contradiction signal; `some c` is `Ok(())` together with the cell after
the in-place mutation.  In the singleton branch the Rust code reads
`self.possible_values[0]`; this is rendered with `headD 0`, which agrees
with it on every non-empty cell (and all cells of the program are
non-empty, values being drawn from 1..9). -/
def Cell.remove_possibility (c : Cell) (value : Nat) : Option Cell :=
  if 1 < c.possible_values.length then
    some { c with possible_values := c.possible_values.filter (fun w => decide (w ≠ value)) }
  else if c.possible_values.headD 0 = value then
    none
  else
    some c

/-- Embeds the Rust struct `Grid`: 81 cells in row-major order. -/
structure Grid where
  cells : List Cell
  deriving DecidableEq

/-- Embeds `Grid::new`. -/
def Grid.new : Grid := ⟨List.replicate 81 Cell.default⟩

/-- Reading `self.cells[i]`; out-of-range reads (which would panic in
Rust and never happen on the 81-cell grids) default to `Cell.default`. -/
def Grid.cell (g : Grid) (i : Nat) : Cell := g.cells.getD i Cell.default

/-- Writing `self.cells[i] = c`. -/
def Grid.setCell (g : Grid) (i : Nat) (c : Cell) : Grid := ⟨g.cells.set i c⟩

/-- Embeds `Grid::is_resolve`. -/
def Grid.is_resolve (g : Grid) : Bool :=
  !(g.cells.any (fun c => decide (1 < c.possible_values.length)))

/-- Embeds `Grid::iter_row`: `(0..81).filter(|i| idx / 9 == i / 9)`. -/
def Grid.iter_row (idx : Nat) : List Nat :=
  (List.range 81).filter (fun i => decide (idx / 9 = i / 9))

/-- Embeds `Grid::iter_col`: `(0..81).filter(|i| idx % 9 == i % 9)`. -/
def Grid.iter_col (idx : Nat) : List Nat :=
  (List.range 81).filter (fun i => decide (idx % 9 = i % 9))

/-- Embeds the closure `get_square_idx` of `Grid::iter_square`. -/
def Grid.square_idx (idx : Nat) : Nat := 27 * ((idx / 9) / 3) + 3 * ((idx % 9) / 3)

/-- Embeds `Grid::iter_square`. -/
def Grid.iter_square (idx : Nat) : List Nat :=
  (List.range 81).filter (fun i => decide (Grid.square_idx i = Grid.square_idx idx))

/-- Embeds `Grid::end_propagation`. -/
def Grid.end_propagation (g : Grid) : Grid :=
  ⟨g.cells.map (fun c => { c with propagated := false })⟩

/-- The marking `self.cells[idx].propagated = true` done by `propagate`. -/
def Grid.set_propagated (g : Grid) (i : Nat) : Grid :=
  g.setCell i { g.cell i with propagated := true }

/-- Number of cells whose `propagated` marker is still `false`; this is
the measure that bounds the recursion depth of `propagate`. -/
def Grid.unprop_count (g : Grid) : Nat := g.cells.countP (fun c => !c.propagated)

/-- Result of a `propagate` run: `ok g` models `Ok(())` with the mutated
grid `g`, `contra g` models `Err(())` with the grid as mutated up to the
point of the contradiction, and `fuelOut` reports that the explicit
recursion-depth bound was exhausted (which the termination theorem rules
out for sufficient fuel). -/
inductive PRes where
  | ok (g : Grid)
  | contra (g : Grid)
  | fuelOut
  deriving DecidableEq

/-- Success test on a `PRes` (the `is_ok()` of the driver). -/
def PRes.isOk : PRes → Bool
  | .ok _ => true
  | _ => false

/-- The grid carried by a `PRes`; `fuelOut` (never reached with enough
fuel) defaults to the fresh grid. -/
def PRes.grid : PRes → Grid
  | .ok g => g
  | .contra g => g
  | .fuelOut => Grid.new

/-- Sequencing of the `?` operator of the Rust code: on `ok` continue,
on any failure return it unchanged. -/
def PRes.andThen (r : PRes) (f : Grid → PRes) : PRes :=
  match r with
  | .ok g => f g
  | e => e

/-- One `for` loop of `Grid::propagate` over a peer group: for every
peer index not yet marked propagated, call `remove_possibility` (aborting
with the contradiction on `Err`) and then recurse (`rec` is the recursive
call to `propagate` at the next fuel level). -/
def Grid.prop_peers (rec : Grid → Nat → PRes) (v : Nat) : List Nat → Grid → PRes
  | [], g => .ok g
  | j :: rest, g =>
    if (g.cell j).propagated then
      Grid.prop_peers rec v rest g
    else
      match (g.cell j).remove_possibility v with
      | none => .contra g
      | some c =>
        match rec (g.setCell j c) j with
        | .ok g2 => Grid.prop_peers rec v rest g2
        | e => e

/-- Embeds `Grid::propagate`, with an explicit bound `fuel` on the
recursion depth.  On a singleton cell it sets the `propagated` marker,
reads the value, and sweeps the column, row and square peer groups in the
order of the source, chaining with `andThen` exactly as the `?` operator
does. -/
def Grid.propagate : Nat → Grid → Nat → PRes
  | 0, _, _ => .fuelOut
  | fuel + 1, g, idx =>
    if (g.cell idx).possible_values.length = 1 then
      let cell_value := (g.cell idx).possible_values.headD 0
      let g1 := g.set_propagated idx
      (Grid.prop_peers (Grid.propagate fuel) cell_value (Grid.iter_col idx) g1).andThen
        (fun g2 =>
          (Grid.prop_peers (Grid.propagate fuel) cell_value (Grid.iter_row idx) g2).andThen
            (fun g3 => Grid.prop_peers (Grid.propagate fuel) cell_value (Grid.iter_square idx) g3))
    else
      .ok g

/-- The folded closure of `Grid::get_lowest_entropy_cell_idx`: singleton
cells keep the accumulator, the others contribute their candidate count
through `min`. -/
def entropy_fold (m : Nat) (c : Cell) : Nat :=
  if c.possible_values.length = 1 then m else min c.possible_values.length m

/-- Embeds the fold of `Grid::get_lowest_entropy_cell_idx` computing the
least candidate count among the cells that are not singletons (starting
from `9usize`). -/
def Grid.min_entropy (g : Grid) : Nat :=
  g.cells.foldl entropy_fold 9

/-- The indices competing for the choice in
`Grid::get_lowest_entropy_cell_idx`: the enumerate-filter of the source,
rendered as a filter over the index range. -/
def Grid.entropy_candidates (g : Grid) : List Nat :=
  (List.range g.cells.length).filter
    (fun i => decide ((g.cell i).possible_values.length = g.min_entropy))

/-- Embeds `Grid::get_lowest_entropy_cell_idx`; the random `choose` over
the candidate indices is determinized by `pick` exactly as in
`Cell.collapse`. -/
def Grid.get_lowest_entropy_cell_idx (g : Grid) (pick : Nat) : Nat :=
  (g.entropy_candidates).getD (pick % g.entropy_candidates.length) 0

/-- The in-place `self.cells[cell_idx].collapse()` of the step driver. -/
def Grid.collapse_at (g : Grid) (idx pick : Nat) : Grid :=
  g.setCell idx ((g.cell idx).collapse pick).1

/-- Embeds one tick of the driver loop in `main` (the part guarded by the
tick timer): if the grid is not resolved, pick the lowest-entropy cell,
collapse it, propagate, and either clear the markers (success) or discard
the grid for a fresh one (contradiction).  The fuel `unprop_count + 1` is
sufficient by the termination theorem, so `fuelOut` is unreachable here;
it is sent to the same reset branch as the contradiction. -/
def Grid.step (g : Grid) (pc pv : Nat) : Grid :=
  if g.is_resolve then g
  else
    let idx := g.get_lowest_entropy_cell_idx pc
    let g1 := g.collapse_at idx pv
    match Grid.propagate (g1.unprop_count + 1) g1 idx with
    | .ok g2 => g2.end_propagation
    | _ => Grid.new

example : Grid.propagate 0 Grid.new 0 = .fuelOut := rfl

example : (Grid.propagate 82 Grid.new 0).isOk = true := by decide

example : Grid.iter_col 0 = [0, 9, 18, 27, 36, 45, 54, 63, 72] := by decide

example : Grid.iter_square 10 = [0, 1, 2, 9, 10, 11, 18, 19, 20] := by decide

/-! ### Generic list lemmas -/

lemma getD_set_self {α : Type} (d : α) :
    ∀ (l : List α) (i : Nat) (a : α), i < l.length → (l.set i a).getD i d = a := by
  intro l
  induction l with
  | nil => intro i a h; simp at h
  | cons x t ih =>
    intro i a h
    cases i with
    | zero => simp
    | succ i => simpa using ih i a (by simpa using h)

lemma getD_set_ne {α : Type} (d : α) :
    ∀ (l : List α) (i j : Nat) (a : α), i ≠ j → (l.set i a).getD j d = l.getD j d := by
  intro l
  induction l with
  | nil => intro i j a _; simp
  | cons x t ih =>
    intro i j a hij
    cases i with
    | zero =>
      cases j with
      | zero => exact absurd rfl hij
      | succ j => simp
    | succ i =>
      cases j with
      | zero => simp
      | succ j => simpa using ih i j a (by omega)

lemma getD_mem {α : Type} (d : α) :
    ∀ (l : List α) (i : Nat), i < l.length → l.getD i d ∈ l := by
  intro l
  induction l with
  | nil => intro i h; simp at h
  | cons x t ih =>
    intro i h
    cases i with
    | zero => simp
    | succ i =>
      simp only [List.getD_cons_succ]
      exact List.mem_cons_of_mem _ (ih i (by simpa using h))

lemma countP_set {α : Type} (p : α → Bool) (d : α) :
    ∀ (l : List α) (i : Nat) (a : α), i < l.length →
      (l.set i a).countP p + (if p (l.getD i d) then 1 else 0)
        = l.countP p + (if p a then 1 else 0) := by
  intro l
  induction l with
  | nil => intro i a h; simp at h
  | cons x t ih =>
    intro i a h
    cases i with
    | zero =>
      simp [List.countP_cons]
      omega
    | succ i =>
      have := ih i a (by simpa using h)
      simp only [List.set_cons_succ, List.countP_cons, List.getD_cons_succ]
      omega

lemma countP_set_le {α : Type} (p : α → Bool) {l : List α} {i : Nat} {a : α}
    (h : p a = false) : (l.set i a).countP p ≤ l.countP p := by
  by_cases hi : i < l.length
  · have := countP_set p a l i a hi
    simp [h] at this
    omega
  · rw [List.set_eq_of_length_le (by omega)]

lemma countP_set_eq {α : Type} (p : α → Bool) (d : α) {l : List α} {i : Nat} {a : α}
    (h : p a = p (l.getD i d)) : (l.set i a).countP p = l.countP p := by
  by_cases hi : i < l.length
  · have := countP_set p d l i a hi
    rw [h] at this
    omega
  · rw [List.set_eq_of_length_le (by omega)]

lemma countP_set_lt {α : Type} (p : α → Bool) (d : α) {l : List α} {i : Nat} {a : α}
    (hi : i < l.length) (hold : p (l.getD i d) = true) (hnew : p a = false) :
    (l.set i a).countP p < l.countP p := by
  have := countP_set p d l i a hi
  rw [hold, hnew] at this
  simp at this
  omega

lemma countP_le_of_pointwise {α : Type} (p : α → Bool) (d : α) :
    ∀ (l l2 : List α), l2.length = l.length →
      (∀ i, p (l.getD i d) = false → p (l2.getD i d) = false) →
      l2.countP p ≤ l.countP p := by
  intro l
  induction l with
  | nil =>
    intro l2 hlen _
    have : l2 = [] := List.length_eq_zero.mp (by simpa using hlen)
    simp [this]
  | cons x t ih =>
    intro l2 hlen hpt
    cases l2 with
    | nil => simp at hlen
    | cons y t2 =>
      have h0 := hpt 0
      have htail := ih t2 (by simpa using hlen) (fun i => by simpa using hpt (i + 1))
      simp only [List.getD_cons_zero] at h0
      simp only [List.countP_cons]
      by_cases hx : p x = true
      · by_cases hy : p y = true
        · simp [hx, hy]; omega
        · simp [hx, hy]; omega
      · have hx2 : p x = false := by simpa using hx
        have hy2 : p y = false := h0 hx2
        simp [hx2, hy2]; omega

lemma countP_pos_of_getD {α : Type} (p : α → Bool) (d : α) {l : List α} {i : Nat}
    (hi : i < l.length) (hp : p (l.getD i d) = true) : 0 < l.countP p :=
  List.countP_pos_iff.mpr ⟨l.getD i d, getD_mem d l i hi, hp⟩

/-! ### Cell-level lemmas about `remove_possibility` and `collapse` -/

lemma rp_propagated {c c2 : Cell} {v : Nat} (h : c.remove_possibility v = some c2) :
    c2.propagated = c.propagated := by
  unfold Cell.remove_possibility at h
  split at h
  · cases h; rfl
  · split at h
    · cases h
    · cases h; rfl

lemma rp_subset {c c2 : Cell} {v : Nat} (h : c.remove_possibility v = some c2) :
    c2.possible_values ⊆ c.possible_values := by
  unfold Cell.remove_possibility at h
  split at h
  · cases h; exact fun x hx => (List.mem_filter.mp hx).1
  · split at h
    · cases h
    · cases h; exact fun _ hx => hx

lemma rp_not_mem {c c2 : Cell} {v : Nat} (h : c.remove_possibility v = some c2) :
    v ∉ c2.possible_values := by
  unfold Cell.remove_possibility at h
  split at h
  · cases h
    intro hv
    rcases List.mem_filter.mp hv with ⟨-, hdec⟩
    simp at hdec
  · rename_i hlen
    split at h
    · cases h
    · rename_i hne
      cases h
      intro hv
      have h1 : c.possible_values.length ≤ 1 := by omega
      match hval : c.possible_values, hv with
      | [w], hv =>
        rw [hval] at hne
        simp at hv hne
        exact hne (by rw [hv])
      | w :: x :: t, _ => rw [hval] at h1; simp at h1

lemma rp_multi {c : Cell} {v : Nat} (h : 1 < c.possible_values.length) :
    c.remove_possibility v
      = some { c with possible_values := c.possible_values.filter (fun w => decide (w ≠ v)) } := by
  unfold Cell.remove_possibility
  simp [h]

lemma rp_singleton_self {c : Cell} {v : Nat} (h : c.possible_values = [v]) :
    c.remove_possibility v = none := by
  unfold Cell.remove_possibility
  simp [h]

lemma rp_singleton_other {c : Cell} {v w : Nat} (h : c.possible_values = [w]) (hne : w ≠ v) :
    c.remove_possibility v = some c := by
  unfold Cell.remove_possibility
  simp [h, hne]

/-! ### Grid cell-access lemmas -/

lemma length_setCell (g : Grid) (i : Nat) (c : Cell) :
    (g.setCell i c).cells.length = g.cells.length := by
  simp [Grid.setCell]

lemma cell_setCell_self {g : Grid} {i : Nat} (c : Cell) (h : i < g.cells.length) :
    (g.setCell i c).cell i = c :=
  getD_set_self Cell.default g.cells i c h

lemma cell_setCell_ne {g : Grid} {i j : Nat} (c : Cell) (h : i ≠ j) :
    (g.setCell i c).cell j = g.cell j :=
  getD_set_ne Cell.default g.cells i j c h

lemma cell_set_propagated_values (g : Grid) (i j : Nat) :
    ((g.set_propagated i).cell j).possible_values = (g.cell j).possible_values := by
  by_cases h : i = j
  · subst h
    by_cases hi : i < g.cells.length
    · rw [Grid.set_propagated, cell_setCell_self _ hi]
    · rw [Grid.set_propagated, Grid.setCell, List.set_eq_of_length_le (by omega)]
  · rw [Grid.set_propagated, cell_setCell_ne _ h]

lemma cell_set_propagated_marker (g : Grid) (i j : Nat) :
    ((g.set_propagated i).cell j).propagated
      = if i = j ∧ i < g.cells.length then true else (g.cell j).propagated := by
  by_cases h : i = j
  · subst h
    by_cases hi : i < g.cells.length
    · rw [Grid.set_propagated, cell_setCell_self _ hi]; simp [hi]
    · rw [Grid.set_propagated, Grid.setCell, List.set_eq_of_length_le (by omega)]
      simp [hi]
  · rw [Grid.set_propagated, cell_setCell_ne _ h]
    simp [h]

lemma length_set_propagated (g : Grid) (i : Nat) :
    (g.set_propagated i).cells.length = g.cells.length :=
  length_setCell g i _

lemma unprop_setCell_remove {g : Grid} {j : Nat} {c : Cell} {v : Nat}
    (h : (g.cell j).remove_possibility v = some c) :
    (g.setCell j c).unprop_count = g.unprop_count := by
  unfold Grid.unprop_count Grid.setCell
  exact countP_set_eq _ Cell.default (by rw [rp_propagated h]; rfl)

lemma unprop_set_propagated_le (g : Grid) (i : Nat) :
    (g.set_propagated i).unprop_count ≤ g.unprop_count := by
  unfold Grid.unprop_count Grid.set_propagated Grid.setCell
  exact countP_set_le _ (by simp)

lemma unprop_set_propagated_lt {g : Grid} {i : Nat} (hi : i < g.cells.length)
    (h : (g.cell i).propagated = false) :
    (g.set_propagated i).unprop_count < g.unprop_count := by
  unfold Grid.unprop_count Grid.set_propagated Grid.setCell
  exact countP_set_lt _ Cell.default hi (by simp [Grid.cell] at h ⊢; simp [h]) (by simp)

/-! ### The evolution preorder on grids

`Evolves g g2` records that `g2` is obtained from `g` by removals and
marker settings only: the length is unchanged, `propagated` markers are
never cleared, and candidate sets only shrink. -/

def Evolves (g g2 : Grid) : Prop :=
  g2.cells.length = g.cells.length ∧
    ∀ j, ((g.cell j).propagated = true → (g2.cell j).propagated = true) ∧
      (g2.cell j).possible_values ⊆ (g.cell j).possible_values

lemma evolves_refl (g : Grid) : Evolves g g :=
  ⟨rfl, fun _ => ⟨fun h => h, fun _ hx => hx⟩⟩

lemma evolves_trans {g1 g2 g3 : Grid} (h1 : Evolves g1 g2) (h2 : Evolves g2 g3) :
    Evolves g1 g3 :=
  ⟨h2.1.trans h1.1, fun j =>
    ⟨fun h => (h2.2 j).1 ((h1.2 j).1 h), fun _ hx => (h1.2 j).2 ((h2.2 j).2 hx)⟩⟩

lemma evolves_unprop_le {g g2 : Grid} (h : Evolves g g2) :
    g2.unprop_count ≤ g.unprop_count := by
  unfold Grid.unprop_count
  refine countP_le_of_pointwise _ Cell.default g.cells g2.cells h.1 ?_
  intro i hp
  have := (h.2 i).1
  revert hp this
  unfold Grid.cell
  cases hmk : (g.cells.getD i Cell.default).propagated <;>
    cases hmk2 : (g2.cells.getD i Cell.default).propagated <;> simp

lemma evolves_set_propagated (g : Grid) (i : Nat) : Evolves g (g.set_propagated i) := by
  refine ⟨length_set_propagated g i, fun j => ?_⟩
  constructor
  · intro h
    rw [cell_set_propagated_marker]
    split <;> simp [h]
  · rw [cell_set_propagated_values]
    exact fun _ hx => hx

lemma evolves_setCell_remove {g : Grid} {j : Nat} {c : Cell} {v : Nat}
    (h : (g.cell j).remove_possibility v = some c) : Evolves g (g.setCell j c) := by
  refine ⟨length_setCell g j c, fun k => ?_⟩
  by_cases hk : j = k
  · subst hk
    by_cases hj : j < g.cells.length
    · rw [cell_setCell_self _ hj]
      exact ⟨by rw [rp_propagated h]; exact fun h => h, rp_subset h⟩
    · rw [Grid.setCell, List.set_eq_of_length_le (by omega)]
      exact ⟨fun h => h, fun _ hx => hx⟩
  · rw [cell_setCell_ne _ hk]
    exact ⟨fun h => h, fun _ hx => hx⟩

/-- Evolution statement for a `PRes`: the carried grid (if any) evolves
from `g`. -/
def ResEvolves (g : Grid) : PRes → Prop
  | .ok g2 => Evolves g g2
  | .contra g2 => Evolves g g2
  | .fuelOut => True

lemma resEvolves_andThen {g : Grid} {r : PRes} {f : Grid → PRes}
    (h1 : ResEvolves g r) (h2 : ∀ g2, r = .ok g2 → ResEvolves g2 (f g2)) :
    ResEvolves g (r.andThen f) := by
  cases r with
  | ok g2 =>
    have hf := h2 g2 rfl
    have h12 : Evolves g g2 := h1
    cases hr : f g2 with
    | ok g3 => simp only [PRes.andThen, hr]; exact evolves_trans h12 (by rw [hr] at hf; exact hf)
    | contra g3 => simp only [PRes.andThen, hr]; exact evolves_trans h12 (by rw [hr] at hf; exact hf)
    | fuelOut => simp only [PRes.andThen, hr]; trivial
  | contra g2 => exact h1
  | fuelOut => trivial

lemma resEvolves_mono {g g2 : Grid} {r : PRes} (h : Evolves g g2) (h2 : ResEvolves g2 r) :
    ResEvolves g r := by
  cases r with
  | ok g3 => exact evolves_trans h h2
  | contra g3 => exact evolves_trans h h2
  | fuelOut => trivial

/-! ### Unfolding equations for `prop_peers` and `propagate` -/

lemma prop_peers_nil {rec : Grid → Nat → PRes} {v : Nat} {g : Grid} :
    Grid.prop_peers rec v [] g = .ok g := rfl

lemma prop_peers_cons_marked {rec : Grid → Nat → PRes} {v j : Nat} {rest : List Nat} {g : Grid}
    (h : (g.cell j).propagated = true) :
    Grid.prop_peers rec v (j :: rest) g = Grid.prop_peers rec v rest g := by
  simp [Grid.prop_peers, h]

lemma prop_peers_cons_contra {rec : Grid → Nat → PRes} {v j : Nat} {rest : List Nat} {g : Grid}
    (h : (g.cell j).propagated = false) (h2 : (g.cell j).remove_possibility v = none) :
    Grid.prop_peers rec v (j :: rest) g = .contra g := by
  simp [Grid.prop_peers, h, h2]

lemma prop_peers_cons_some {rec : Grid → Nat → PRes} {v j : Nat} {rest : List Nat} {g : Grid}
    {c : Cell} (h : (g.cell j).propagated = false) (h2 : (g.cell j).remove_possibility v = some c) :
    Grid.prop_peers rec v (j :: rest) g
      = match rec (g.setCell j c) j with
        | .ok g2 => Grid.prop_peers rec v rest g2
        | e => e := by
  simp [Grid.prop_peers, h, h2]

lemma propagate_zero {g : Grid} {idx : Nat} : Grid.propagate 0 g idx = .fuelOut := rfl

lemma propagate_succ_not {fuel : Nat} {g : Grid} {idx : Nat}
    (h : (g.cell idx).possible_values.length ≠ 1) :
    Grid.propagate (fuel + 1) g idx = .ok g := by
  simp [Grid.propagate, h]

lemma propagate_succ_singleton {fuel : Nat} {g : Grid} {idx : Nat}
    (h : (g.cell idx).possible_values.length = 1) :
    Grid.propagate (fuel + 1) g idx
      = (Grid.prop_peers (Grid.propagate fuel) ((g.cell idx).possible_values.headD 0)
            (Grid.iter_col idx) (g.set_propagated idx)).andThen
          (fun g2 =>
            (Grid.prop_peers (Grid.propagate fuel) ((g.cell idx).possible_values.headD 0)
                (Grid.iter_row idx) g2).andThen
              (fun g3 =>
                Grid.prop_peers (Grid.propagate fuel) ((g.cell idx).possible_values.headD 0)
                  (Grid.iter_square idx) g3)) := by
  simp [Grid.propagate, h]

lemma iter_col_lt {idx j : Nat} (h : j ∈ Grid.iter_col idx) : j < 81 :=
  List.mem_range.mp (List.mem_filter.mp h).1

lemma iter_row_lt {idx j : Nat} (h : j ∈ Grid.iter_row idx) : j < 81 :=
  List.mem_range.mp (List.mem_filter.mp h).1

lemma iter_square_lt {idx j : Nat} (h : j ∈ Grid.iter_square idx) : j < 81 :=
  List.mem_range.mp (List.mem_filter.mp h).1

/-! ### Evolution of `prop_peers` and `propagate` -/

lemma prop_peers_evolves {rec : Grid → Nat → PRes} {v : Nat}
    (hrec : ∀ g j, ResEvolves g (rec g j)) :
    ∀ (peers : List Nat) (g : Grid), ResEvolves g (Grid.prop_peers rec v peers g) := by
  intro peers
  induction peers with
  | nil => intro g; exact evolves_refl g
  | cons j rest ih =>
    intro g
    cases hm : (g.cell j).propagated with
    | true => rw [prop_peers_cons_marked hm]; exact ih g
    | false =>
      cases hrm : (g.cell j).remove_possibility v with
      | none => rw [prop_peers_cons_contra hm hrm]; exact evolves_refl g
      | some c =>
        rw [prop_peers_cons_some hm hrm]
        have h1 : Evolves g (g.setCell j c) := evolves_setCell_remove hrm
        cases hr : rec (g.setCell j c) j with
        | ok g2 =>
          have h2 : Evolves (g.setCell j c) g2 := by
            have := hrec (g.setCell j c) j; rw [hr] at this; exact this
          exact resEvolves_mono (evolves_trans h1 h2) (ih g2)
        | contra g2 =>
          have h2 : Evolves (g.setCell j c) g2 := by
            have := hrec (g.setCell j c) j; rw [hr] at this; exact this
          exact evolves_trans h1 h2
        | fuelOut => trivial

lemma propagate_evolves : ∀ (fuel : Nat) (g : Grid) (idx : Nat),
    ResEvolves g (Grid.propagate fuel g idx) := by
  intro fuel
  induction fuel with
  | zero => intro g idx; trivial
  | succ fuel ih =>
    intro g idx
    by_cases hs : (g.cell idx).possible_values.length = 1
    · rw [propagate_succ_singleton hs]
      refine resEvolves_mono (evolves_set_propagated g idx) ?_
      refine resEvolves_andThen (prop_peers_evolves ih _ _) ?_
      intro g2 _
      refine resEvolves_andThen (prop_peers_evolves ih _ _) ?_
      intro g3 _
      exact prop_peers_evolves ih _ _
    · rw [propagate_succ_not hs]; exact evolves_refl g

lemma propagate_ok_evolves {fuel : Nat} {g g2 : Grid} {idx : Nat}
    (h : Grid.propagate fuel g idx = .ok g2) : Evolves g g2 := by
  have := propagate_evolves fuel g idx; rw [h] at this; exact this

lemma propagate_contra_evolves {fuel : Nat} {g g2 : Grid} {idx : Nat}
    (h : Grid.propagate fuel g idx = .contra g2) : Evolves g g2 := by
  have := propagate_evolves fuel g idx; rw [h] at this; exact this

lemma prop_peers_ok_evolves {rec : Grid → Nat → PRes} {v : Nat} {peers : List Nat} {g g2 : Grid}
    (hrec : ∀ g j, ResEvolves g (rec g j)) (h : Grid.prop_peers rec v peers g = .ok g2) :
    Evolves g g2 := by
  have := prop_peers_evolves (v := v) hrec peers g; rw [h] at this; exact this

/-- A singleton cell is marked `propagated` before the peer sweeps, and
markers are never cleared, so it is still marked in the final grid of a
successful or contradictory run. -/
lemma propagate_marks {fuel : Nat} {g g2 : Grid} {idx : Nat} (hi : idx < g.cells.length)
    (hs : (g.cell idx).possible_values.length = 1)
    (h : Grid.propagate (fuel + 1) g idx = .ok g2 ∨ Grid.propagate (fuel + 1) g idx = .contra g2) :
    (g2.cell idx).propagated = true := by
  rw [propagate_succ_singleton hs] at h
  have hg1 : ((g.set_propagated idx).cell idx).propagated = true := by
    rw [cell_set_propagated_marker]; simp [hi]
  have hch : ResEvolves (g.set_propagated idx)
      ((Grid.prop_peers (Grid.propagate fuel) ((g.cell idx).possible_values.headD 0)
          (Grid.iter_col idx) (g.set_propagated idx)).andThen
        (fun g2 =>
          (Grid.prop_peers (Grid.propagate fuel) ((g.cell idx).possible_values.headD 0)
              (Grid.iter_row idx) g2).andThen
            (fun g3 =>
              Grid.prop_peers (Grid.propagate fuel) ((g.cell idx).possible_values.headD 0)
                (Grid.iter_square idx) g3))) := by
    refine resEvolves_andThen (prop_peers_evolves (propagate_evolves fuel) _ _) ?_
    intro g2 _
    refine resEvolves_andThen (prop_peers_evolves (propagate_evolves fuel) _ _) ?_
    intro g3 _
    exact prop_peers_evolves (propagate_evolves fuel) _ _
  cases h with
  | inl h => rw [h] at hch; exact (hch.2 idx).1 hg1
  | inr h => rw [h] at hch; exact (hch.2 idx).1 hg1

/-! ### Termination: the unpropagated count bounds the recursion depth -/

lemma prop_peers_no_fuelOut {rec : Grid → Nat → PRes} {v : Nat} {fuelB : Nat}
    (hrec_ev : ∀ g j, ResEvolves g (rec g j))
    (hrec_nf : ∀ g j, g.cells.length = 81 → j < 81 → (g.cell j).propagated = false →
      g.unprop_count ≤ fuelB → rec g j ≠ .fuelOut) :
    ∀ (peers : List Nat) (g : Grid), g.cells.length = 81 → (∀ j ∈ peers, j < 81) →
      g.unprop_count ≤ fuelB → Grid.prop_peers rec v peers g ≠ .fuelOut := by
  intro peers
  induction peers with
  | nil => intro g _ _ _; rw [prop_peers_nil]; simp
  | cons j rest ih =>
    intro g hlen hpeers hcnt
    cases hm : (g.cell j).propagated with
    | true =>
      rw [prop_peers_cons_marked hm]
      exact ih g hlen (fun k hk => hpeers k (List.mem_cons_of_mem _ hk)) hcnt
    | false =>
      cases hrm : (g.cell j).remove_possibility v with
      | none => rw [prop_peers_cons_contra hm hrm]; simp
      | some c =>
        rw [prop_peers_cons_some hm hrm]
        have hj81 : j < 81 := hpeers j (List.mem_cons_self j rest)
        have hlenS : (g.setCell j c).cells.length = 81 := by rw [length_setCell]; exact hlen
        have hcntS : (g.setCell j c).unprop_count ≤ fuelB := by
          rw [unprop_setCell_remove hrm]; exact hcnt
        have hmS : ((g.setCell j c).cell j).propagated = false := by
          rw [cell_setCell_self _ (by omega)]
          rw [rp_propagated hrm]; exact hm
        have hne := hrec_nf (g.setCell j c) j hlenS hj81 hmS hcntS
        cases hr : rec (g.setCell j c) j with
        | ok g2 =>
          have hev : Evolves (g.setCell j c) g2 := by
            have := hrec_ev (g.setCell j c) j; rw [hr] at this; exact this
          refine ih g2 (by rw [hev.1]; exact hlenS)
            (fun k hk => hpeers k (List.mem_cons_of_mem _ hk)) ?_
          exact le_trans (evolves_unprop_le hev) hcntS
        | contra g2 => simp
        | fuelOut => exact absurd hr hne

lemma propagate_no_fuelOut : ∀ (fuel : Nat) (g : Grid) (idx : Nat), g.cells.length = 81 →
    ((idx < 81 ∧ (g.cell idx).propagated = false ∧ g.unprop_count ≤ fuel) ∨
      g.unprop_count + 1 ≤ fuel) →
    Grid.propagate fuel g idx ≠ .fuelOut := by
  intro fuel
  induction fuel with
  | zero =>
    intro g idx hlen h
    rcases h with ⟨hi, hm, hc⟩ | hc
    · have hpos : 0 < g.unprop_count := by
        refine countP_pos_of_getD _ Cell.default (l := g.cells) (i := idx) (by omega) ?_
        show (!(g.cells.getD idx Cell.default).propagated) = true
        have hm2 : (g.cells.getD idx Cell.default).propagated = false := hm
        rw [hm2]
        rfl
      omega
    · omega
  | succ fuel ih =>
    intro g idx hlen h
    by_cases hs : (g.cell idx).possible_values.length = 1
    · rw [propagate_succ_singleton hs]
      have hlen1 : (g.set_propagated idx).cells.length = 81 := by
        rw [length_set_propagated]; exact hlen
      have hcnt1 : (g.set_propagated idx).unprop_count ≤ fuel := by
        rcases h with ⟨hi, hm, hc⟩ | hc
        · have := unprop_set_propagated_lt (by omega) hm; omega
        · have := unprop_set_propagated_le g idx; omega
      have hnf : ∀ g2 j, g2.cells.length = 81 → j < 81 → (g2.cell j).propagated = false →
          g2.unprop_count ≤ fuel → Grid.propagate fuel g2 j ≠ .fuelOut :=
        fun g2 j a b c d => ih g2 j a (Or.inl ⟨b, c, d⟩)
      have hev := propagate_evolves fuel
      have hcol := prop_peers_no_fuelOut (v := (g.cell idx).possible_values.headD 0) hev hnf (Grid.iter_col idx) (g.set_propagated idx)
        hlen1 (fun k hk => iter_col_lt hk) hcnt1
      cases hc : Grid.prop_peers (Grid.propagate fuel) ((g.cell idx).possible_values.headD 0)
          (Grid.iter_col idx) (g.set_propagated idx) with
      | fuelOut => exact absurd hc hcol
      | contra g2 => simp only [PRes.andThen]; simp
      | ok g2 =>
        simp only [PRes.andThen]
        have hev2 : Evolves (g.set_propagated idx) g2 :=
          prop_peers_ok_evolves hev hc
        have hrow := prop_peers_no_fuelOut (v := (g.cell idx).possible_values.headD 0) hev hnf (Grid.iter_row idx) g2
          (by rw [hev2.1]; exact hlen1) (fun k hk => iter_row_lt hk)
          (le_trans (evolves_unprop_le hev2) hcnt1)
        cases hr : Grid.prop_peers (Grid.propagate fuel) ((g.cell idx).possible_values.headD 0)
            (Grid.iter_row idx) g2 with
        | fuelOut => exact absurd hr hrow
        | contra g3 => simp only [PRes.andThen]; simp
        | ok g3 =>
          simp only [PRes.andThen]
          have hev3 : Evolves g2 g3 := prop_peers_ok_evolves hev hr
          exact prop_peers_no_fuelOut (v := (g.cell idx).possible_values.headD 0) hev hnf (Grid.iter_square idx) g3
            (by rw [hev3.1, hev2.1]; exact hlen1) (fun k hk => iter_square_lt hk)
            (le_trans (evolves_unprop_le hev3) (le_trans (evolves_unprop_le hev2) hcnt1))
    · rw [propagate_succ_not hs]; simp

/-! ### After a successful sweep, the value is gone from every peer that
is still unpropagated -/

lemma prop_peers_not_mem {rec : Grid → Nat → PRes} {v : Nat}
    (hrec_ev : ∀ g j, ResEvolves g (rec g j)) :
    ∀ (peers : List Nat) (g g2 : Grid), Grid.prop_peers rec v peers g = .ok g2 →
      ∀ p ∈ peers, p < g.cells.length → (g2.cell p).propagated = false →
        v ∉ (g2.cell p).possible_values := by
  intro peers
  induction peers with
  | nil => intro g g2 _ p hp; simp at hp
  | cons j rest ih =>
    intro g g2 hok p hp hlt hpm
    cases hm : (g.cell j).propagated with
    | true =>
      rw [prop_peers_cons_marked hm] at hok
      rcases List.mem_cons.mp hp with hpj | hpr
      · subst hpj
        have hev : Evolves g g2 := prop_peers_ok_evolves hrec_ev hok
        rw [(hev.2 p).1 hm] at hpm
        cases hpm
      · exact ih g g2 hok p hpr hlt hpm
    | false =>
      cases hrm : (g.cell j).remove_possibility v with
      | none => rw [prop_peers_cons_contra hm hrm] at hok; cases hok
      | some c =>
        rw [prop_peers_cons_some hm hrm] at hok
        cases hr : rec (g.setCell j c) j with
        | ok g3 =>
          rw [hr] at hok
          have hok2 : Grid.prop_peers rec v rest g3 = .ok g2 := hok
          have hevS3 : Evolves (g.setCell j c) g3 := by
            have := hrec_ev (g.setCell j c) j; rw [hr] at this; exact this
          have hev32 : Evolves g3 g2 := prop_peers_ok_evolves hrec_ev hok2
          rcases List.mem_cons.mp hp with hpj | hpr
          · subst hpj
            have hcell : (g.setCell p c).cell p = c := cell_setCell_self _ hlt
            intro hvmem
            have h1 : v ∈ (g3.cell p).possible_values := (hev32.2 p).2 hvmem
            have h2 : v ∈ ((g.setCell p c).cell p).possible_values := (hevS3.2 p).2 h1
            rw [hcell] at h2
            exact rp_not_mem hrm h2
          · refine ih g3 g2 hok2 p hpr ?_ hpm
            rw [hevS3.1, length_setCell]
            exact hlt
        | contra g3 => rw [hr] at hok; cases hok
        | fuelOut => rw [hr] at hok; cases hok

/-- After a successful `propagate` from a singleton cell holding `v`,
every peer (column, row or square) of the start index that is not marked
`propagated` in the final grid no longer has `v` among its candidates. -/
lemma propagate_removes {fuel : Nat} {g g2 : Grid} {idx v p : Nat}
    (hlen : g.cells.length = 81) (hs : (g.cell idx).possible_values = [v])
    (hp : p ∈ Grid.iter_col idx ∨ p ∈ Grid.iter_row idx ∨ p ∈ Grid.iter_square idx)
    (hok : Grid.propagate fuel g idx = .ok g2)
    (hpm : (g2.cell p).propagated = false) :
    v ∉ (g2.cell p).possible_values := by
  cases fuel with
  | zero => cases hok
  | succ fuel =>
    have hs1 : (g.cell idx).possible_values.length = 1 := by rw [hs]; rfl
    have hhead : (g.cell idx).possible_values.headD 0 = v := by rw [hs]; rfl
    rw [propagate_succ_singleton hs1, hhead] at hok
    have hev := propagate_evolves fuel
    cases hcol : Grid.prop_peers (Grid.propagate fuel) v (Grid.iter_col idx)
        (g.set_propagated idx) with
    | contra gA => rw [hcol] at hok; cases hok
    | fuelOut => rw [hcol] at hok; cases hok
    | ok gA =>
      rw [hcol] at hok
      have hok2 : (Grid.prop_peers (Grid.propagate fuel) v (Grid.iter_row idx) gA).andThen
          (fun g3 => Grid.prop_peers (Grid.propagate fuel) v (Grid.iter_square idx) g3)
            = .ok g2 := hok
      have hE1 : Evolves (g.set_propagated idx) gA := prop_peers_ok_evolves hev hcol
      cases hrow : Grid.prop_peers (Grid.propagate fuel) v (Grid.iter_row idx) gA with
      | contra gB => rw [hrow] at hok2; cases hok2
      | fuelOut => rw [hrow] at hok2; cases hok2
      | ok gB =>
        rw [hrow] at hok2
        have hok3 : Grid.prop_peers (Grid.propagate fuel) v (Grid.iter_square idx) gB
            = .ok g2 := hok2
        have hE2 : Evolves gA gB := prop_peers_ok_evolves hev hrow
        have hE3 : Evolves gB g2 := prop_peers_ok_evolves hev hok3
        have hlen1 : (g.set_propagated idx).cells.length = 81 := by
          rw [length_set_propagated]; exact hlen
        rcases hp with hpc | hpr | hps
        · cases hA : (gA.cell p).propagated with
          | true =>
            rw [(hE3.2 p).1 ((hE2.2 p).1 hA)] at hpm
            cases hpm
          | false =>
            have := prop_peers_not_mem hev (Grid.iter_col idx) (g.set_propagated idx) gA hcol
              p hpc (by rw [hlen1]; exact iter_col_lt hpc) hA
            intro hvmem
            exact this ((hE2.2 p).2 ((hE3.2 p).2 hvmem))
        · cases hB : (gB.cell p).propagated with
          | true =>
            rw [(hE3.2 p).1 hB] at hpm
            cases hpm
          | false =>
            have := prop_peers_not_mem hev (Grid.iter_row idx) gA gB hrow
              p hpr (by rw [hE1.1, hlen1]; exact iter_row_lt hpr) hB
            intro hvmem
            exact this ((hE3.2 p).2 hvmem)
        · exact prop_peers_not_mem hev (Grid.iter_square idx) gB g2 hok3
            p hps (by rw [hE2.1, hE1.1, hlen1]; exact iter_square_lt hps) hpm

/-! ### Origin of contradictions -/

lemma prop_peers_contra_origin {rec : Grid → Nat → PRes} {v : Nat}
    (hrec : ∀ g j g2, rec g j = .contra g2 →
      ∃ k w, (g2.cell k).propagated = false ∧ (g2.cell k).remove_possibility w = none) :
    ∀ (peers : List Nat) (g g2 : Grid), Grid.prop_peers rec v peers g = .contra g2 →
      ∃ k w, (g2.cell k).propagated = false ∧ (g2.cell k).remove_possibility w = none := by
  intro peers
  induction peers with
  | nil => intro g g2 h; cases h
  | cons j rest ih =>
    intro g g2 h
    cases hm : (g.cell j).propagated with
    | true => rw [prop_peers_cons_marked hm] at h; exact ih g g2 h
    | false =>
      cases hrm : (g.cell j).remove_possibility v with
      | none =>
        rw [prop_peers_cons_contra hm hrm] at h
        cases h
        exact ⟨j, v, hm, hrm⟩
      | some c =>
        rw [prop_peers_cons_some hm hrm] at h
        cases hr : rec (g.setCell j c) j with
        | ok g3 =>
          rw [hr] at h
          exact ih g3 g2 h
        | contra g3 =>
          rw [hr] at h
          cases h
          exact hrec _ _ _ hr
        | fuelOut => rw [hr] at h; cases h

lemma propagate_contra_origin : ∀ (fuel : Nat) (g g2 : Grid) (idx : Nat),
    Grid.propagate fuel g idx = .contra g2 →
    ∃ k w, (g2.cell k).propagated = false ∧ (g2.cell k).remove_possibility w = none := by
  intro fuel
  induction fuel with
  | zero => intro g g2 idx h; cases h
  | succ fuel ih =>
    intro g g2 idx h
    by_cases hs : (g.cell idx).possible_values.length = 1
    · rw [propagate_succ_singleton hs] at h
      have hrec : ∀ gg j gg2, Grid.propagate fuel gg j = .contra gg2 →
          ∃ k w, (gg2.cell k).propagated = false ∧ (gg2.cell k).remove_possibility w = none :=
        fun gg j gg2 hh => ih gg gg2 j hh
      cases hcol : Grid.prop_peers (Grid.propagate fuel)
          ((g.cell idx).possible_values.headD 0) (Grid.iter_col idx) (g.set_propagated idx) with
      | contra gA =>
        rw [hcol] at h
        cases h
        exact prop_peers_contra_origin hrec _ _ _ hcol
      | fuelOut => rw [hcol] at h; cases h
      | ok gA =>
        rw [hcol] at h
        have h2 : (Grid.prop_peers (Grid.propagate fuel) ((g.cell idx).possible_values.headD 0)
            (Grid.iter_row idx) gA).andThen
              (fun g3 => Grid.prop_peers (Grid.propagate fuel)
                ((g.cell idx).possible_values.headD 0) (Grid.iter_square idx) g3)
                = .contra g2 := h
        cases hrow : Grid.prop_peers (Grid.propagate fuel)
            ((g.cell idx).possible_values.headD 0) (Grid.iter_row idx) gA with
        | contra gB =>
          rw [hrow] at h2
          cases h2
          exact prop_peers_contra_origin hrec _ _ _ hrow
        | fuelOut => rw [hrow] at h2; cases h2
        | ok gB =>
          rw [hrow] at h2
          exact prop_peers_contra_origin hrec _ _ _ h2
    · rw [propagate_succ_not hs] at h; cases h

/-! ### The cell and grid invariants: non-empty sets of distinct values
drawn from 1..9 -/

/-- The data-model invariant for a cell: `possible_values` is a
non-empty set of distinct integers drawn from 1..9. -/
def Cell.Valid (c : Cell) : Prop :=
  c.possible_values ≠ [] ∧ c.possible_values.Nodup ∧
    ∀ w ∈ c.possible_values, 1 ≤ w ∧ w ≤ 9

/-- The grid invariant: every cell satisfies `Cell.Valid`. -/
def Grid.Valid (g : Grid) : Prop := ∀ c ∈ g.cells, c.Valid

instance (c : Cell) : Decidable c.Valid := by unfold Cell.Valid; infer_instance

instance (g : Grid) : Decidable g.Valid := by unfold Grid.Valid; infer_instance

lemma default_valid : Cell.default.Valid := by decide

lemma new_valid : Grid.new.Valid := by
  intro c hc
  rw [List.eq_of_mem_replicate hc]
  exact default_valid

lemma valid_of_same_values {c c2 : Cell} (h : c.Valid)
    (hval : c2.possible_values = c.possible_values) : c2.Valid := by
  unfold Cell.Valid at h ⊢
  rw [hval]
  exact h

lemma cell_valid {g : Grid} (h : g.Valid) (i : Nat) : (g.cell i).Valid := by
  by_cases hi : i < g.cells.length
  · exact h _ (getD_mem Cell.default g.cells i hi)
  · have : g.cell i = Cell.default := by
      unfold Grid.cell
      rw [List.getD_eq_getD_get?, List.get?_eq_none.mpr (by omega)]
      rfl
    rw [this]
    exact default_valid

lemma setCell_valid {g : Grid} {c : Cell} {i : Nat} (hg : g.Valid) (hc : c.Valid) :
    (g.setCell i c).Valid := by
  intro x hx
  rcases List.mem_or_eq_of_mem_set hx with hmem | hx2
  · exact hg x hmem
  · rw [hx2]; exact hc

lemma set_propagated_valid {g : Grid} (hg : g.Valid) (i : Nat) :
    (g.set_propagated i).Valid :=
  setCell_valid hg (valid_of_same_values (cell_valid hg i) rfl)

lemma valid_length_le {c : Cell} (h : c.Valid) : c.possible_values.length ≤ 9 := by
  have hsub : c.possible_values ⊆ [1, 2, 3, 4, 5, 6, 7, 8, 9] := by
    intro w hw
    have := h.2.2 w hw
    have h1 := this.1
    have h2 := this.2
    interval_cases w <;> simp
  have := (h.2.1.subperm hsub).length_le
  simpa using this

lemma valid_length_pos {c : Cell} (h : c.Valid) : 1 ≤ c.possible_values.length := by
  cases hv : c.possible_values with
  | nil => exact absurd hv h.1
  | cons x t => simp

lemma filter_remove_ne_nil {l : List Nat} {v : Nat} (hnd : l.Nodup) (hlen : 1 < l.length) :
    l.filter (fun w => decide (w ≠ v)) ≠ [] := by
  intro hemp
  have hall : ∀ w ∈ l, w = v := by
    intro w hw
    have := List.filter_eq_nil_iff.mp hemp w hw
    simpa using this
  match hv : l, hlen, hnd with
  | a :: b :: t, _, hnd2 =>
    have ha : a = v := hall a (by simp)
    have hb : b = v := hall b (by simp)
    have hab : a ∉ b :: t := (List.nodup_cons.mp hnd2).1
    exact hab (by rw [ha, hb]; simp)

lemma remove_valid {c c2 : Cell} {v : Nat} (h : c.Valid)
    (hr : c.remove_possibility v = some c2) : c2.Valid := by
  unfold Cell.remove_possibility at hr
  split at hr
  · rename_i hlen
    cases hr
    exact ⟨filter_remove_ne_nil h.2.1 hlen, h.2.1.filter _,
      fun w hw => h.2.2 w (List.mem_filter.mp hw).1⟩
  · split at hr
    · cases hr
    · cases hr; exact h

lemma collapse_multi {c : Cell} (pick : Nat) (hlen : 1 < c.possible_values.length) :
    c.collapse pick
      = ({ c with possible_values :=
            [c.possible_values.getD (pick % c.possible_values.length) 0] },
          c.possible_values.getD (pick % c.possible_values.length) 0) := by
  unfold Cell.collapse
  rw [if_pos hlen]

lemma collapse_not_multi {c : Cell} (pick : Nat) (hlen : ¬ 1 < c.possible_values.length) :
    c.collapse pick = (c, c.possible_values.headD 0) := by
  unfold Cell.collapse
  rw [if_neg hlen]

lemma collapse_valid {c : Cell} (pick : Nat) (h : c.Valid) : ((c.collapse pick).1).Valid := by
  by_cases hlen : 1 < c.possible_values.length
  · rw [collapse_multi pick hlen]
    refine ⟨by simp, by simp, ?_⟩
    intro w hw
    have hw2 : w ∈ [c.possible_values.getD (pick % c.possible_values.length) 0] := hw
    rw [List.mem_singleton] at hw2
    subst hw2
    exact h.2.2 _ (getD_mem 0 _ _ (Nat.mod_lt _ (by omega)))
  · rw [collapse_not_multi pick hlen]
    exact h

lemma collapse_fst_values {c : Cell} (pick : Nat) (h : c.possible_values ≠ []) :
    ((c.collapse pick).1).possible_values = [(c.collapse pick).2] := by
  by_cases hlen : 1 < c.possible_values.length
  · rw [collapse_multi pick hlen]
  · rw [collapse_not_multi pick hlen]
    cases hv : c.possible_values with
    | nil => exact absurd hv h
    | cons x t =>
      rw [hv] at hlen
      cases t with
      | nil => simp [hv]
      | cons y t2 => exact absurd (by simp) hlen

lemma collapse_val_mem {c : Cell} (pick : Nat) (h : c.possible_values ≠ []) :
    (c.collapse pick).2 ∈ c.possible_values := by
  by_cases hlen : 1 < c.possible_values.length
  · rw [collapse_multi pick hlen]
    exact getD_mem 0 _ _ (Nat.mod_lt _ (by omega))
  · rw [collapse_not_multi pick hlen]
    cases hv : c.possible_values with
    | nil => exact absurd hv h
    | cons x t => simp [hv]

lemma collapse_singleton {c : Cell} (pick : Nat) (h : c.possible_values.length = 1) :
    (c.collapse pick).1 = c := by
  rw [collapse_not_multi pick (by omega)]

lemma end_propagation_valid {g : Grid} (hg : g.Valid) : g.end_propagation.Valid := by
  intro x hx
  rcases List.mem_map.mp hx with ⟨c, hc, hcx⟩
  exact valid_of_same_values (hg c hc) (by rw [← hcx])

lemma prop_peers_valid {rec : Grid → Nat → PRes} {v : Nat}
    (hrec : ∀ g j, g.Valid → ((rec g j).grid).Valid) :
    ∀ (peers : List Nat) (g : Grid), g.Valid →
      ((Grid.prop_peers rec v peers g).grid).Valid := by
  intro peers
  induction peers with
  | nil => intro g hg; exact hg
  | cons j rest ih =>
    intro g hg
    cases hm : (g.cell j).propagated with
    | true => rw [prop_peers_cons_marked hm]; exact ih g hg
    | false =>
      cases hrm : (g.cell j).remove_possibility v with
      | none => rw [prop_peers_cons_contra hm hrm]; exact hg
      | some c =>
        rw [prop_peers_cons_some hm hrm]
        have hgS : (g.setCell j c).Valid :=
          setCell_valid hg (remove_valid (cell_valid hg j) hrm)
        have hrecS := hrec (g.setCell j c) j hgS
        cases hr : rec (g.setCell j c) j with
        | ok g3 =>
          rw [hr] at hrecS
          exact ih g3 hrecS
        | contra g3 =>
          rw [hr] at hrecS
          exact hrecS
        | fuelOut => exact new_valid

lemma propagate_grid_valid : ∀ (fuel : Nat) (g : Grid) (idx : Nat), g.Valid →
    ((Grid.propagate fuel g idx).grid).Valid := by
  intro fuel
  induction fuel with
  | zero => intro g idx _; exact new_valid
  | succ fuel ih =>
    intro g idx hg
    by_cases hs : (g.cell idx).possible_values.length = 1
    · rw [propagate_succ_singleton hs]
      have hg1 : (g.set_propagated idx).Valid := set_propagated_valid hg idx
      have hcolv := prop_peers_valid (v := (g.cell idx).possible_values.headD 0) ih
        (Grid.iter_col idx) (g.set_propagated idx) hg1
      cases hcol : Grid.prop_peers (Grid.propagate fuel)
          ((g.cell idx).possible_values.headD 0) (Grid.iter_col idx) (g.set_propagated idx) with
      | contra gA => rw [hcol] at hcolv; simp only [PRes.andThen]; exact hcolv
      | fuelOut => simp only [PRes.andThen]; exact new_valid
      | ok gA =>
        rw [hcol] at hcolv
        simp only [PRes.andThen]
        have hrowv := prop_peers_valid (v := (g.cell idx).possible_values.headD 0) ih
          (Grid.iter_row idx) gA hcolv
        cases hrow : Grid.prop_peers (Grid.propagate fuel)
            ((g.cell idx).possible_values.headD 0) (Grid.iter_row idx) gA with
        | contra gB => rw [hrow] at hrowv; exact hrowv
        | fuelOut => exact new_valid
        | ok gB =>
          rw [hrow] at hrowv
          exact prop_peers_valid (v := (g.cell idx).possible_values.headD 0) ih
            (Grid.iter_square idx) gB hrowv
    · rw [propagate_succ_not hs]; exact hg

lemma collapse_at_valid {g : Grid} (idx pv : Nat) (hg : g.Valid) :
    (g.collapse_at idx pv).Valid :=
  setCell_valid hg (collapse_valid pv (cell_valid hg idx))

lemma step_resolved {g : Grid} (pc pv : Nat) (h : g.is_resolve = true) :
    g.step pc pv = g := by
  unfold Grid.step
  rw [if_pos h]

lemma step_eq {g : Grid} (pc pv : Nat) (h : g.is_resolve = false) :
    g.step pc pv
      = match Grid.propagate
            ((g.collapse_at (g.get_lowest_entropy_cell_idx pc) pv).unprop_count + 1)
            (g.collapse_at (g.get_lowest_entropy_cell_idx pc) pv)
            (g.get_lowest_entropy_cell_idx pc) with
        | .ok g2 => g2.end_propagation
        | _ => Grid.new := by
  unfold Grid.step
  rw [if_neg (by simp [h])]

lemma step_valid {g : Grid} (pc pv : Nat) (hg : g.Valid) : (g.step pc pv).Valid := by
  cases hres : g.is_resolve with
  | true => rw [step_resolved pc pv hres]; exact hg
  | false =>
    rw [step_eq pc pv hres]
    have hg1 := collapse_at_valid (g.get_lowest_entropy_cell_idx pc) pv hg
    have hpv := propagate_grid_valid
      ((g.collapse_at (g.get_lowest_entropy_cell_idx pc) pv).unprop_count + 1)
      (g.collapse_at (g.get_lowest_entropy_cell_idx pc) pv)
      (g.get_lowest_entropy_cell_idx pc) hg1
    cases hrr : Grid.propagate
        ((g.collapse_at (g.get_lowest_entropy_cell_idx pc) pv).unprop_count + 1)
        (g.collapse_at (g.get_lowest_entropy_cell_idx pc) pv)
        (g.get_lowest_entropy_cell_idx pc) with
    | ok g2 =>
      rw [hrr] at hpv
      exact end_propagation_valid hpv
    | contra g2 => exact new_valid
    | fuelOut => exact new_valid

/-! ### The lowest-entropy selection -/

lemma entropy_fold_le (a : Nat) (c : Cell) : entropy_fold a c ≤ a := by
  unfold entropy_fold
  split
  · exact le_refl a
  · exact min_le_right _ _

lemma entropy_foldl_le_init : ∀ (l : List Cell) (a : Nat), l.foldl entropy_fold a ≤ a := by
  intro l
  induction l with
  | nil => intro a; simp
  | cons x t ih =>
    intro a
    simp only [List.foldl_cons]
    exact le_trans (ih (entropy_fold a x)) (entropy_fold_le a x)

lemma entropy_foldl_le_mem :
    ∀ (l : List Cell) (a : Nat) (c : Cell), c ∈ l → c.possible_values.length ≠ 1 →
      l.foldl entropy_fold a ≤ c.possible_values.length := by
  intro l
  induction l with
  | nil => intro a c hc; simp at hc
  | cons x t ih =>
    intro a c hc hne
    simp only [List.foldl_cons]
    rcases List.mem_cons.mp hc with h | h
    · subst h
      refine le_trans (entropy_foldl_le_init t _) ?_
      unfold entropy_fold
      rw [if_neg hne]
      exact min_le_left _ _
    · exact ih _ c h hne

lemma entropy_foldl_achieved :
    ∀ (l : List Cell) (a : Nat), l.foldl entropy_fold a = a ∨
      ∃ c ∈ l, c.possible_values.length ≠ 1 ∧
        l.foldl entropy_fold a = c.possible_values.length := by
  intro l
  induction l with
  | nil => intro a; left; rfl
  | cons x t ih =>
    intro a
    simp only [List.foldl_cons]
    rcases ih (entropy_fold a x) with h | ⟨c, hc, hne, heq⟩
    · by_cases hx : x.possible_values.length = 1
      · have hfax : entropy_fold a x = a := by unfold entropy_fold; rw [if_pos hx]
        left
        rw [h, hfax]
      · have hfax : entropy_fold a x = min x.possible_values.length a := by
          unfold entropy_fold; rw [if_neg hx]
        rcases le_total x.possible_values.length a with hle | hle
        · right
          refine ⟨x, List.mem_cons_self x t, hx, ?_⟩
          rw [h, hfax]
          exact Nat.min_eq_left hle
        · left
          rw [h, hfax]
          exact Nat.min_eq_right hle
    · right
      exact ⟨c, List.mem_cons_of_mem x hc, hne, heq⟩

lemma mem_getD_of_mem {α : Type} (d : α) :
    ∀ (l : List α) (c : α), c ∈ l → ∃ i, i < l.length ∧ l.getD i d = c := by
  intro l
  induction l with
  | nil => intro c hc; simp at hc
  | cons x t ih =>
    intro c hc
    rcases List.mem_cons.mp hc with h | h
    · exact ⟨0, by simp, by simp [h]⟩
    · obtain ⟨i, hi, hgi⟩ := ih c h
      exact ⟨i + 1, by simpa using hi, by simpa using hgi⟩

lemma getD_indexOf {α : Type} [DecidableEq α] (d : α) :
    ∀ (l : List α) (a : α), a ∈ l → l.getD (l.indexOf a) d = a := by
  intro l
  induction l with
  | nil => intro a ha; simp at ha
  | cons x t ih =>
    intro a ha
    by_cases hax : a = x
    · subst hax
      rw [List.indexOf_cons_self]
      simp
    · have hat : a ∈ t := by
        rcases List.mem_cons.mp ha with h | h
        · exact absurd h hax
        · exact h
      rw [List.indexOf_cons_ne _ (by simpa using fun h => hax h.symm)]
      simpa using ih a hat

lemma is_resolve_false_iff (g : Grid) :
    g.is_resolve = false ↔ ∃ c ∈ g.cells, 1 < c.possible_values.length := by
  unfold Grid.is_resolve
  simp [List.any_eq_true]

lemma min_entropy_le {g : Grid} {c : Cell} (hc : c ∈ g.cells)
    (hne : c.possible_values.length ≠ 1) : g.min_entropy ≤ c.possible_values.length :=
  entropy_foldl_le_mem g.cells 9 c hc hne

lemma min_entropy_achieved {g : Grid} (hv : g.Valid) (hnr : g.is_resolve = false) :
    ∃ i, i < g.cells.length ∧ (g.cell i).possible_values.length = g.min_entropy ∧
      1 < g.min_entropy := by
  obtain ⟨c, hc, hlc⟩ := (is_resolve_false_iff g).mp hnr
  rcases entropy_foldl_achieved g.cells 9 with h9 | ⟨c2, hc2, hne2, heq⟩
  · have h9m : g.min_entropy = 9 := h9
    have hle : g.min_entropy ≤ c.possible_values.length := min_entropy_le hc (by omega)
    have hle9 : c.possible_values.length ≤ 9 := valid_length_le (hv c hc)
    have hlen9 : c.possible_values.length = g.min_entropy := by omega
    obtain ⟨i, hi, hgi⟩ := mem_getD_of_mem Cell.default g.cells c hc
    refine ⟨i, hi, ?_, by omega⟩
    show (g.cells.getD i Cell.default).possible_values.length = g.min_entropy
    rw [hgi, hlen9]
  · have hme : g.min_entropy = c2.possible_values.length := heq
    have h1 : 1 ≤ c2.possible_values.length := valid_length_pos (hv c2 hc2)
    obtain ⟨i, hi, hgi⟩ := mem_getD_of_mem Cell.default g.cells c2 hc2
    refine ⟨i, hi, ?_, by omega⟩
    show (g.cells.getD i Cell.default).possible_values.length = g.min_entropy
    rw [hgi, hme]

lemma mem_entropy_candidates {g : Grid} {i : Nat} :
    i ∈ g.entropy_candidates ↔
      i < g.cells.length ∧ (g.cell i).possible_values.length = g.min_entropy := by
  unfold Grid.entropy_candidates
  simp [List.mem_filter, List.mem_range]

lemma glec_mem {g : Grid} (pick : Nat) (hv : g.Valid) (hnr : g.is_resolve = false) :
    g.get_lowest_entropy_cell_idx pick ∈ g.entropy_candidates := by
  obtain ⟨i, hi, heq, -⟩ := min_entropy_achieved hv hnr
  have hmem : i ∈ g.entropy_candidates := mem_entropy_candidates.mpr ⟨hi, heq⟩
  have hlen : 0 < g.entropy_candidates.length :=
    List.length_pos.mpr (List.ne_nil_of_mem hmem)
  unfold Grid.get_lowest_entropy_cell_idx
  exact getD_mem 0 _ _ (Nat.mod_lt _ hlen)

lemma glec_exists_pick {g : Grid} {i : Nat} (h : i ∈ g.entropy_candidates) :
    ∃ pick, g.get_lowest_entropy_cell_idx pick = i := by
  refine ⟨g.entropy_candidates.indexOf i, ?_⟩
  unfold Grid.get_lowest_entropy_cell_idx
  have hlt : g.entropy_candidates.indexOf i < g.entropy_candidates.length :=
    List.indexOf_lt_length.mpr h
  rw [Nat.mod_eq_of_lt hlt]
  exact getD_indexOf 0 _ i h

/-! ### Peer relation and concrete test grids -/

/-- Two indices are peers when one occurs in the other's column, row or
square iterator (all three iterators contain the index itself). -/
def Grid.is_peer (idx p : Nat) : Prop :=
  p ∈ Grid.iter_col idx ∨ p ∈ Grid.iter_row idx ∨ p ∈ Grid.iter_square idx

instance (idx p : Nat) : Decidable (Grid.is_peer idx p) := by
  unfold Grid.is_peer; infer_instance

/-- Concrete 81-cell grid: cell 0 holds 5, cells 1 and 9 hold 3 or 5,
the rest are fresh.  Propagating from cell 0 cascades through cell 9
(which collapses to 3) into cell 1 (which collapses to 5); cell 1 is then
marked propagated, so the later row sweep of cell 0 skips it and the run
succeeds with 5 collapsed twice in row 0. -/
def gridC1 : Grid :=
  ⟨[⟨[5], false⟩, ⟨[3, 5], false⟩] ++ List.replicate 7 Cell.default
    ++ [⟨[3, 5], false⟩] ++ List.replicate 71 Cell.default⟩

/-- Concrete 81-cell grid: cell 0 holds 5, cell 1 already holds the
singleton 3 (not yet propagated), cell 10 holds 3 or 7. -/
def gridC2 : Grid :=
  ⟨[⟨[5], false⟩, ⟨[3], false⟩] ++ List.replicate 8 Cell.default
    ++ [⟨[3, 7], false⟩] ++ List.replicate 70 Cell.default⟩

/-- Concrete 81-cell grid for the step driver: cell 0 holds 5, cells 1
and 2 hold 4 or 5, the rest are fresh.  The driver selects cell 1
(lowest entropy, first candidate), collapses it to 5, and propagation
hits the contradiction at cell 0. -/
def gridC10 : Grid :=
  ⟨[⟨[5], false⟩, ⟨[4, 5], false⟩, ⟨[4, 5], false⟩] ++ List.replicate 78 Cell.default⟩

/-- Concrete 81-cell grid: only cell 0 is collapsed (to 5). -/
def gridW1 : Grid := ⟨⟨[5], false⟩ :: List.replicate 80 Cell.default⟩

/-- One-cell grid whose only cell is the singleton 5. -/
def gridW3 : Grid := ⟨[⟨[5], false⟩]⟩

/-- Two-cell grid with both cells collapsed to 5: propagating from cell 0
reaches cell 1 in the row sweep and raises the contradiction. -/
def gridW3b : Grid := ⟨[⟨[5], false⟩, ⟨[5], false⟩]⟩

/-! ### The claims -/

/-- C1, counterexample.  The claim states that after a successful
`propagate(0)` no peer of 0 collapsed before or during the call still
holds the value 5.  On `gridC1` the run succeeds, yet afterwards cell 1 —
a row peer of cell 0, collapsed and marked propagated during the call —
holds exactly 5, the same value as cell 0: the value appears twice among
collapsed cells of row 0. -/
theorem claim_C1_counterexample :
    (Grid.propagate 82 gridC1 0).isOk = true ∧
    (gridC1.cell 0).possible_values = [5] ∧
    (1 ∈ Grid.iter_row 0) ∧
    ((Grid.propagate 82 gridC1 0).grid.cell 1).possible_values = [5] ∧
    ((Grid.propagate 82 gridC1 0).grid.cell 1).propagated = true ∧
    ((Grid.propagate 82 gridC1 0).grid.cell 0).possible_values = [5] := by
  refine ⟨by decide, by decide, by decide, by decide, by decide, by decide⟩

/-- C1 (amended): for every 81-cell grid and index whose cell is the
singleton `[v]`, if `propagate` succeeds then every peer of the index
that is *not marked propagated* in the final grid no longer has `v`
among its candidates.  (A peer that was collapsed and marked propagated
during the cascade may still hold `v`, as the counterexample shows.) -/
theorem claim_C1_amended (fuel : Nat) (g : Grid) (idx v p : Nat)
    (hlen : g.cells.length = 81)
    (hs : (g.cell idx).possible_values = [v])
    (hp : Grid.is_peer idx p)
    (hok : (Grid.propagate fuel g idx).isOk = true)
    (hpm : ((Grid.propagate fuel g idx).grid.cell p).propagated = false) :
    v ∉ ((Grid.propagate fuel g idx).grid.cell p).possible_values := by
  cases hres : Grid.propagate fuel g idx with
  | ok g2 =>
    rw [hres] at hpm
    exact propagate_removes hlen hs hp hres hpm
  | contra g2 => rw [hres] at hok; simp [PRes.isOk] at hok
  | fuelOut => rw [hres] at hok; simp [PRes.isOk] at hok

/-- C1 witness: on `gridW1` (only cell 0 collapsed, to 5) the run
succeeds and the column peer 9, unpropagated at the end, has lost 5. -/
theorem claim_C1_witness :
    (5 : Nat) ∉ ((Grid.propagate 82 gridW1 0).grid.cell 9).possible_values :=
  claim_C1_amended 82 gridW1 0 5 9 (by decide) (by decide) (by decide) (by decide) (by decide)

/-- C2, counterexample.  The claim states that a peer that was already a
singleton before the removal does not have its own value broadcast within
the call.  On `gridC2`, cell 1 is already the singleton 3 before
`propagate(0)` (the removal of 5 leaves it unchanged, so it is not a
*new* singleton), yet the code recurses through it: its value 3 is
removed from its box/column peer 10 (which ends as `[7]`) and cell 1 is
marked propagated. -/
theorem claim_C2_counterexample :
    (gridC2.cell 1).possible_values = [3] ∧
    (gridC2.cell 1).propagated = false ∧
    (gridC2.cell 0).possible_values = [5] ∧
    Grid.is_peer 1 10 ∧
    (3 : Nat) ∈ (gridC2.cell 10).possible_values ∧
    (Grid.propagate 82 gridC2 0).isOk = true ∧
    ((Grid.propagate 82 gridC2 0).grid.cell 10).possible_values = [7] ∧
    ((Grid.propagate 82 gridC2 0).grid.cell 1).propagated = true := by
  refine ⟨by decide, by decide, by decide, by decide, by decide, by decide, by decide, by decide⟩

/-- C2 (amended): after the removal on a not-yet-propagated peer, the
recursive call continues the cascade through that peer exactly when the
peer's candidate set is a singleton *after* the removal — whether newly
reduced or already a singleton before.  A peer left with several
candidates contributes nothing beyond its own removal (the recursive call
on it is the identity), and `propagate` on a non-singleton index does
nothing. -/
theorem claim_C2_amended :
    (∀ (fuel : Nat) (g : Grid) (idx : Nat), (g.cell idx).possible_values.length ≠ 1 →
      Grid.propagate (fuel + 1) g idx = .ok g) ∧
    (∀ (fuel v j : Nat) (rest : List Nat) (g : Grid) (c : Cell), j < g.cells.length →
      (g.cell j).propagated = false → (g.cell j).remove_possibility v = some c →
      c.possible_values.length ≠ 1 → 1 ≤ fuel →
      Grid.prop_peers (Grid.propagate fuel) v (j :: rest) g
        = Grid.prop_peers (Grid.propagate fuel) v rest (g.setCell j c)) ∧
    (∀ (fuel v j : Nat) (rest : List Nat) (g g2 : Grid) (c : Cell), j < g.cells.length →
      (g.cell j).propagated = false → (g.cell j).remove_possibility v = some c →
      c.possible_values.length = 1 →
      Grid.prop_peers (Grid.propagate fuel) v (j :: rest) g = .ok g2 →
      (g2.cell j).propagated = true) := by
  refine ⟨?_, ?_, ?_⟩
  · intro fuel g idx h
    exact propagate_succ_not h
  · intro fuel v j rest g c hj hm hrm hc hfuel
    rw [prop_peers_cons_some hm hrm]
    cases fuel with
    | zero => omega
    | succ f =>
      have hcell : ((g.setCell j c).cell j).possible_values.length ≠ 1 := by
        rw [cell_setCell_self _ hj]; exact hc
      rw [propagate_succ_not hcell]
  · intro fuel v j rest g g2 c hj hm hrm hc hok
    rw [prop_peers_cons_some hm hrm] at hok
    cases hr : Grid.propagate fuel (g.setCell j c) j with
    | ok g3 =>
      rw [hr] at hok
      have hok2 : Grid.prop_peers (Grid.propagate fuel) v rest g3 = .ok g2 := hok
      cases fuel with
      | zero => cases hr
      | succ f =>
        have hmark : (g3.cell j).propagated = true := by
          refine propagate_marks ?_ ?_ (Or.inl hr)
          · rw [length_setCell]; exact hj
          · rw [cell_setCell_self _ hj]; exact hc
        have hev : Evolves g3 g2 :=
          prop_peers_ok_evolves (propagate_evolves (f + 1)) hok2
        exact (hev.2 j).1 hmark
    | contra g3 => rw [hr] at hok; cases hok
    | fuelOut => rw [hr] at hok; cases hok

/-- C2 witness: the three amended conjuncts at concrete inputs: a
non-singleton index is a no-op; a peer left with several candidates does
not cascade; a peer that is a singleton after the removal (here cell 1 of
`gridC2`, already `[3]` before) ends marked propagated. -/
theorem claim_C2_witness :
    Grid.propagate 3 gridW1 5 = .ok gridW1 ∧
    Grid.prop_peers (Grid.propagate 2) 5 (2 :: []) gridW1
      = Grid.prop_peers (Grid.propagate 2) 5 []
          (gridW1.setCell 2 ⟨[1, 2, 3, 4, 6, 7, 8, 9], false⟩) ∧
    ((Grid.prop_peers (Grid.propagate 81) 5 [1] gridC2).grid.cell 1).propagated = true :=
  ⟨claim_C2_amended.1 2 gridW1 5 (by decide),
   claim_C2_amended.2.1 2 5 2 [] gridW1 ⟨[1, 2, 3, 4, 6, 7, 8, 9], false⟩
     (by decide) (by decide) (by decide) (by decide) (by decide),
   claim_C2_amended.2.2 81 5 1 [] gridC2
     ((Grid.prop_peers (Grid.propagate 81) 5 [1] gridC2).grid) ⟨[3], false⟩
     (by decide) (by decide) (by decide) (by decide) (by rfl)⟩

/-- C3: `propagate` fails exactly through `remove_possibility`
contradictions.  (i) When the sweep meets an unpropagated peer on which
the removal signals a contradiction, it returns failure immediately with
the grid exactly as it was at that moment — so no later removal is
applied and the conflicting cell is unchanged; (ii) any failing
`propagate` exposes such a cell in the returned grid: an unpropagated
cell on which some `remove_possibility` call returns the contradiction;
(iii) the grid carried by a failure evolved from the start grid by
removals and markings only (the mutations made before the abort). -/
theorem claim_C3 :
    (∀ (fuel v j : Nat) (rest : List Nat) (g : Grid),
      (g.cell j).propagated = false → (g.cell j).remove_possibility v = none →
      Grid.prop_peers (Grid.propagate fuel) v (j :: rest) g = .contra g) ∧
    (∀ (fuel : Nat) (g g2 : Grid) (idx : Nat), Grid.propagate fuel g idx = .contra g2 →
      ∃ k w, (g2.cell k).propagated = false ∧ (g2.cell k).remove_possibility w = none) ∧
    (∀ (fuel : Nat) (g g2 : Grid) (idx : Nat), Grid.propagate fuel g idx = .contra g2 →
      Evolves g g2) := by
  refine ⟨?_, ?_, ?_⟩
  · intro fuel v j rest g hm hrm
    exact prop_peers_cons_contra hm hrm
  · intro fuel g g2 idx h
    exact propagate_contra_origin fuel g g2 idx h
  · intro fuel g g2 idx h
    exact propagate_contra_evolves h

/-- C3 witness: on the one-cell grid holding `[5]`, sweeping the value 5
over peer 0 aborts immediately with the grid unchanged; and the failing
run on `gridW3b` returns a grid that evolved from the start grid. -/
theorem claim_C3_witness :
    Grid.prop_peers (Grid.propagate 3) 5 (0 :: [1]) gridW3 = .contra gridW3 ∧
    Evolves gridW3b ((Grid.propagate 82 gridW3b 0).grid) :=
  ⟨claim_C3.1 3 5 0 [1] gridW3 (by decide) (by decide),
   claim_C3.2.2 82 gridW3b ((Grid.propagate 82 gridW3b 0).grid) 0 (by rfl)⟩

/-- C4: termination.  With fuel exceeding the number of unpropagated
cells, `propagate` never exhausts its recursion-depth bound (each nested
level marks a previously unmarked singleton first); markers are never
cleared during a run (ok or failing); and a singleton start cell is
marked before the sweeps and stays marked. -/
theorem claim_C4 :
    (∀ (fuel : Nat) (g : Grid) (idx : Nat), g.cells.length = 81 →
      g.unprop_count + 1 ≤ fuel → Grid.propagate fuel g idx ≠ .fuelOut) ∧
    (∀ (fuel : Nat) (g g2 : Grid) (idx j : Nat),
      (Grid.propagate fuel g idx = .ok g2 ∨ Grid.propagate fuel g idx = .contra g2) →
      (g.cell j).propagated = true → (g2.cell j).propagated = true) ∧
    (∀ (fuel : Nat) (g g2 : Grid) (idx : Nat), idx < g.cells.length →
      (g.cell idx).possible_values.length = 1 →
      (Grid.propagate (fuel + 1) g idx = .ok g2 ∨
        Grid.propagate (fuel + 1) g idx = .contra g2) →
      (g2.cell idx).propagated = true) := by
  refine ⟨?_, ?_, ?_⟩
  · intro fuel g idx hlen hfuel
    exact propagate_no_fuelOut fuel g idx hlen (Or.inr hfuel)
  · intro fuel g g2 idx j h hj
    have hev := propagate_evolves fuel g idx
    cases h with
    | inl h => rw [h] at hev; exact (hev.2 j).1 hj
    | inr h => rw [h] at hev; exact (hev.2 j).1 hj
  · intro fuel g g2 idx hi hs h
    exact propagate_marks hi hs h

/-- C4 witness: 82 units of fuel suffice on the fresh grid, and on
`gridW1` the collapsed start cell 0 ends marked propagated. -/
theorem claim_C4_witness :
    Grid.propagate 82 Grid.new 0 ≠ .fuelOut ∧
    ((Grid.propagate 82 gridW1 0).grid.cell 0).propagated = true :=
  ⟨claim_C4.1 82 Grid.new 0 (by decide) (by decide),
   claim_C4.2.2 81 gridW1 ((Grid.propagate 82 gridW1 0).grid) 0
     (by decide) (by decide) (Or.inl (by rfl))⟩

/-- C5: case analysis of `remove_possibility`.  On a cell with more than
one candidate it succeeds, the value is gone afterwards, every other
value is kept, it is a no-op when the value is absent, and (on distinct
candidates) the result is never empty.  On a singleton holding a
different value it succeeds leaving the cell unchanged; on a singleton
holding exactly the value it fails with the contradiction. -/
theorem claim_C5 :
    (∀ (c : Cell) (v : Nat), 1 < c.possible_values.length →
      (c.remove_possibility v).isSome = true) ∧
    (∀ (c : Cell) (v : Nat), 1 < c.possible_values.length →
      v ∉ ((c.remove_possibility v).getD c).possible_values) ∧
    (∀ (c : Cell) (v w : Nat), 1 < c.possible_values.length → w ≠ v →
      (w ∈ ((c.remove_possibility v).getD c).possible_values ↔ w ∈ c.possible_values)) ∧
    (∀ (c : Cell) (v : Nat), 1 < c.possible_values.length → v ∉ c.possible_values →
      (c.remove_possibility v).getD c = c) ∧
    (∀ (c : Cell) (v : Nat), c.possible_values.Nodup → 1 < c.possible_values.length →
      ((c.remove_possibility v).getD c).possible_values ≠ []) ∧
    (∀ (c : Cell) (v w : Nat), c.possible_values = [w] → w ≠ v →
      c.remove_possibility v = some c) ∧
    (∀ (c : Cell) (v : Nat), c.possible_values = [v] → c.remove_possibility v = none) := by
  refine ⟨?_, ?_, ?_, ?_, ?_, ?_, ?_⟩
  · intro c v h
    rw [rp_multi h]
    rfl
  · intro c v h
    rw [rp_multi h]
    intro hv
    have hv2 : v ∈ c.possible_values.filter (fun w => decide (w ≠ v)) := hv
    rcases List.mem_filter.mp hv2 with ⟨-, hdec⟩
    simp at hdec
  · intro c v w h hw
    rw [rp_multi h]
    show w ∈ c.possible_values.filter (fun x => decide (x ≠ v)) ↔ w ∈ c.possible_values
    rw [List.mem_filter]
    simp [hw]
  · intro c v h hv
    rw [rp_multi h]
    show ({ c with possible_values := c.possible_values.filter (fun w => decide (w ≠ v)) } : Cell) = c
    have : c.possible_values.filter (fun w => decide (w ≠ v)) = c.possible_values := by
      refine List.filter_eq_self.mpr ?_
      intro a ha
      simp
      intro hav
      rw [hav] at ha
      exact absurd ha hv
    rw [this]
  · intro c v hnd h
    rw [rp_multi h]
    exact filter_remove_ne_nil hnd h
  · intro c v w h hw
    exact rp_singleton_other h hw
  · intro c v h
    exact rp_singleton_self h

/-- C5 witness: the seven conjuncts at concrete cells. -/
theorem claim_C5_witness :
    ((⟨[1, 2], false⟩ : Cell).remove_possibility 2).isSome = true ∧
    (2 : Nat) ∉ (((⟨[1, 2], false⟩ : Cell).remove_possibility 2).getD
      ⟨[1, 2], false⟩).possible_values ∧
    ((1 : Nat) ∈ (((⟨[1, 2], false⟩ : Cell).remove_possibility 2).getD
      ⟨[1, 2], false⟩).possible_values ↔ (1 : Nat) ∈ [1, 2]) ∧
    ((⟨[1, 2], false⟩ : Cell).remove_possibility 3).getD ⟨[1, 2], false⟩
      = ⟨[1, 2], false⟩ ∧
    (((⟨[1, 2], false⟩ : Cell).remove_possibility 2).getD
      ⟨[1, 2], false⟩).possible_values ≠ [] ∧
    (⟨[3], false⟩ : Cell).remove_possibility 5 = some ⟨[3], false⟩ ∧
    (⟨[5], false⟩ : Cell).remove_possibility 5 = none :=
  ⟨claim_C5.1 ⟨[1, 2], false⟩ 2 (by decide),
   claim_C5.2.1 ⟨[1, 2], false⟩ 2 (by decide),
   claim_C5.2.2.1 ⟨[1, 2], false⟩ 2 1 (by decide) (by decide),
   claim_C5.2.2.2.1 ⟨[1, 2], false⟩ 3 (by decide) (by decide),
   claim_C5.2.2.2.2.1 ⟨[1, 2], false⟩ 2 (by decide) (by decide),
   claim_C5.2.2.2.2.2.1 ⟨[3], false⟩ 5 3 (by decide) (by decide),
   claim_C5.2.2.2.2.2.2 ⟨[5], false⟩ 5 (by decide)⟩

/-- C6: the invariant — every cell a non-empty set of distinct values in
1..9 — holds for a fresh grid and is preserved by `collapse`,
`remove_possibility` (on success; on failure the cell is untouched by
construction), `propagate` (the grid carried by success *and* by
failure), `end_propagation`, and a whole driver step. -/
theorem claim_C6 :
    Grid.Valid Grid.new ∧
    (∀ (c : Cell) (pick : Nat), c.Valid → ((c.collapse pick).1).Valid) ∧
    (∀ (c c2 : Cell) (v : Nat), c.Valid → c.remove_possibility v = some c2 → c2.Valid) ∧
    (∀ (fuel : Nat) (g : Grid) (idx : Nat), g.Valid →
      ((Grid.propagate fuel g idx).grid).Valid) ∧
    (∀ g : Grid, g.Valid → g.end_propagation.Valid) ∧
    (∀ (g : Grid) (pc pv : Nat), g.Valid → (g.step pc pv).Valid) :=
  ⟨new_valid,
   fun _ pick h => collapse_valid pick h,
   fun _ _ _ h hr => remove_valid h hr,
   propagate_grid_valid,
   fun _ h => end_propagation_valid h,
   fun _ pc pv h => step_valid pc pv h⟩

/-- C6 witness: the invariant checked on the fresh grid, after a collapse
of a fresh cell, and after a whole driver step from the fresh grid. -/
theorem claim_C6_witness :
    Grid.Valid Grid.new ∧ ((Cell.default.collapse 0).1).Valid ∧
    (Grid.new.step 0 0).Valid :=
  ⟨claim_C6.1,
   claim_C6.2.1 Cell.default 0 (by decide),
   claim_C6.2.2.2.2.2 Grid.new 0 0 (by decide)⟩

/-- C7: `collapse` on a non-empty cell leaves exactly the returned value
as the candidate set, that value was among the candidates before, a cell
that is already a singleton is left unchanged, and a second collapse is a
no-op returning the same value. -/
theorem claim_C7 :
    (∀ (c : Cell) (pick : Nat), c.possible_values ≠ [] →
      ((c.collapse pick).1).possible_values = [(c.collapse pick).2]) ∧
    (∀ (c : Cell) (pick : Nat), c.possible_values ≠ [] →
      (c.collapse pick).2 ∈ c.possible_values) ∧
    (∀ (c : Cell) (pick : Nat), c.possible_values.length = 1 →
      (c.collapse pick).1 = c) ∧
    (∀ (c : Cell) (pick pick2 : Nat), c.possible_values ≠ [] →
      ((c.collapse pick).1).collapse pick2 = ((c.collapse pick).1, (c.collapse pick).2)) := by
  refine ⟨?_, ?_, ?_, ?_⟩
  · intro c pick h
    exact collapse_fst_values pick h
  · intro c pick h
    exact collapse_val_mem pick h
  · intro c pick h
    exact collapse_singleton pick h
  · intro c pick pick2 h
    have hv := collapse_fst_values pick h
    have hlen : ((c.collapse pick).1).possible_values.length = 1 := by rw [hv]; rfl
    rw [collapse_not_multi pick2 (by omega), hv]
    rfl

/-- C7 witness: the four conjuncts at a concrete three-candidate cell
and a concrete singleton cell. -/
theorem claim_C7_witness :
    (((⟨[4, 7, 9], false⟩ : Cell).collapse 1).1).possible_values
      = [((⟨[4, 7, 9], false⟩ : Cell).collapse 1).2] ∧
    ((⟨[4, 7, 9], false⟩ : Cell).collapse 1).2 ∈ [4, 7, 9] ∧
    ((⟨[7], false⟩ : Cell).collapse 5).1 = ⟨[7], false⟩ ∧
    (((⟨[4, 7, 9], false⟩ : Cell).collapse 1).1).collapse 9
      = (((⟨[4, 7, 9], false⟩ : Cell).collapse 1).1,
          ((⟨[4, 7, 9], false⟩ : Cell).collapse 1).2) :=
  ⟨claim_C7.1 ⟨[4, 7, 9], false⟩ 1 (by decide),
   claim_C7.2.1 ⟨[4, 7, 9], false⟩ 1 (by decide),
   claim_C7.2.2.1 ⟨[7], false⟩ 5 (by decide),
   claim_C7.2.2.2 ⟨[4, 7, 9], false⟩ 1 9 (by decide)⟩

/-- C8: on a valid unresolved grid, the selected index is in range, its
cell has more than one candidate, that count equals the fold minimum
(which is a lower bound on the count of every multi-candidate cell, so a
singleton cell is never selected), and every index achieving the minimum
is reachable by some random pick. -/
theorem claim_C8 (g : Grid) (pick j : Nat) (hv : g.Valid) (hnr : g.is_resolve = false) :
    1 < (g.cell (g.get_lowest_entropy_cell_idx pick)).possible_values.length ∧
    (g.cell (g.get_lowest_entropy_cell_idx pick)).possible_values.length = g.min_entropy ∧
    g.get_lowest_entropy_cell_idx pick < g.cells.length ∧
    (j < g.cells.length → 1 < (g.cell j).possible_values.length →
      g.min_entropy ≤ (g.cell j).possible_values.length) ∧
    (j < g.cells.length → (g.cell j).possible_values.length = g.min_entropy →
      ∃ pick2, g.get_lowest_entropy_cell_idx pick2 = j) := by
  have hmem := glec_mem pick hv hnr
  obtain ⟨hlt, heq⟩ := mem_entropy_candidates.mp hmem
  obtain ⟨i, hi, hieq, hm2⟩ := min_entropy_achieved hv hnr
  refine ⟨by rw [heq]; exact hm2, heq, hlt, ?_, ?_⟩
  · intro hj hj1
    exact min_entropy_le (getD_mem Cell.default g.cells j hj) (by omega)
  · intro hj hjm
    exact glec_exists_pick (mem_entropy_candidates.mpr ⟨hj, hjm⟩)

/-- C8 witness: on the fresh grid (valid, unresolved) the selected cell
has more than one candidate and realises the fold minimum. -/
theorem claim_C8_witness :
    1 < (Grid.new.cell (Grid.new.get_lowest_entropy_cell_idx 0)).possible_values.length ∧
    (Grid.new.cell (Grid.new.get_lowest_entropy_cell_idx 0)).possible_values.length
      = Grid.new.min_entropy :=
  ⟨(claim_C8 Grid.new 0 0 (by decide) (by decide)).1,
   (claim_C8 Grid.new 0 0 (by decide) (by decide)).2.1⟩

/-- C9: for every index below 81 the three peer iterators have exactly 9
members, contain the index itself, and characterise standard Sudoku
adjacency (same `idx / 9` for rows, same `idx % 9` for columns, same
`27 * ((idx / 9) / 3) + 3 * ((idx % 9) / 3)` for boxes); indices 0 and 10
share only a box, 0 and 9 share a column, 0 and 1 share a row. -/
theorem claim_C9 (idx p : Nat) (h : idx < 81) :
    (Grid.iter_row idx).length = 9 ∧ (Grid.iter_col idx).length = 9 ∧
    (Grid.iter_square idx).length = 9 ∧
    idx ∈ Grid.iter_row idx ∧ idx ∈ Grid.iter_col idx ∧ idx ∈ Grid.iter_square idx ∧
    (p ∈ Grid.iter_row idx ↔ p < 81 ∧ idx / 9 = p / 9) ∧
    (p ∈ Grid.iter_col idx ↔ p < 81 ∧ idx % 9 = p % 9) ∧
    (p ∈ Grid.iter_square idx ↔ p < 81 ∧ Grid.square_idx p = Grid.square_idx idx) ∧
    10 ∈ Grid.iter_square 0 ∧ 10 ∉ Grid.iter_row 0 ∧ 10 ∉ Grid.iter_col 0 ∧
    9 ∈ Grid.iter_col 0 ∧ 9 ∉ Grid.iter_row 0 ∧ 1 ∈ Grid.iter_row 0 := by
  have hlen : ∀ i, i < 81 → (Grid.iter_row i).length = 9 ∧ (Grid.iter_col i).length = 9 ∧
      (Grid.iter_square i).length = 9 := by decide
  obtain ⟨h1, h2, h3⟩ := hlen idx h
  refine ⟨h1, h2, h3, ?_, ?_, ?_, ?_, ?_, ?_,
    by decide, by decide, by decide, by decide, by decide, by decide⟩
  · simp [Grid.iter_row, List.mem_filter, List.mem_range, h]
  · simp [Grid.iter_col, List.mem_filter, List.mem_range, h]
  · simp [Grid.iter_square, List.mem_filter, List.mem_range, h]
  · simp [Grid.iter_row, List.mem_filter, List.mem_range]
  · simp [Grid.iter_col, List.mem_filter, List.mem_range]
  · simp [Grid.iter_square, List.mem_filter, List.mem_range]

/-- C9 witness: the characterisation at index 0 with peer 10. -/
theorem claim_C9_witness :
    (Grid.iter_row 0).length = 9 ∧ 0 ∈ Grid.iter_row 0 ∧
    (10 ∈ Grid.iter_row 0 ↔ 10 < 81 ∧ 0 / 9 = 10 / 9) :=
  ⟨(claim_C9 0 10 (by decide)).1,
   (claim_C9 0 10 (by decide)).2.2.2.1,
   (claim_C9 0 10 (by decide)).2.2.2.2.2.2.1⟩

/-- C10: if, during a step on an unresolved grid, the propagation of the
collapsed cell returns the contradiction, the driver discards the grid:
the step result is exactly `Grid.new`, whose 81 cells all carry the full
candidate set 1..9 and a cleared propagation marker. -/
theorem claim_C10 (g : Grid) (pc pv : Nat) (g2 : Grid) (j : Nat)
    (hnr : g.is_resolve = false)
    (hcontra : Grid.propagate
        ((g.collapse_at (g.get_lowest_entropy_cell_idx pc) pv).unprop_count + 1)
        (g.collapse_at (g.get_lowest_entropy_cell_idx pc) pv)
        (g.get_lowest_entropy_cell_idx pc) = .contra g2)
    (hj : j < 81) :
    g.step pc pv = Grid.new ∧ Grid.new.cells.length = 81 ∧
    (Grid.new.cell j).possible_values = [1, 2, 3, 4, 5, 6, 7, 8, 9] ∧
    (Grid.new.cell j).propagated = false := by
  have hnew : ∀ i, i < 81 → (Grid.new.cell i).possible_values = [1, 2, 3, 4, 5, 6, 7, 8, 9] ∧
      (Grid.new.cell i).propagated = false := by decide
  refine ⟨?_, by decide, (hnew j hj).1, (hnew j hj).2⟩
  rw [step_eq pc pv hnr, hcontra]

/-- C10 witness: on `gridC10` the driver step (pick 0, value pick 1)
collapses cell 1 to 5, propagation contradicts at cell 0, and the step
yields the fresh grid. -/
theorem claim_C10_witness :
    gridC10.step 0 1 = Grid.new ∧
    (Grid.new.cell 0).possible_values = [1, 2, 3, 4, 5, 6, 7, 8, 9] := by
  have h := claim_C10 gridC10 0 1
    ((Grid.propagate
        ((gridC10.collapse_at (gridC10.get_lowest_entropy_cell_idx 0) 1).unprop_count + 1)
        (gridC10.collapse_at (gridC10.get_lowest_entropy_cell_idx 0) 1)
        (gridC10.get_lowest_entropy_cell_idx 0)).grid)
    0 (by decide) (by rfl) (by decide)
  exact ⟨h.1, h.2.2.1⟩

end WfcSudoku
